import Mathlib

/-!
Verification development for the `google-ads-data` repository.

The Python sources under `google_ads_data/` are shallowly embedded below.
Remote effects (the Google Ads API, the AppX mongo directory, AWS SSM) are
modelled by explicit parameters carrying the outcome the remote side
produces; pure computation (string building, query surgery, field-path
traversal, dataframe post-processing) is translated function by function.
Python exceptions are modelled with `Except PyError`.
-/

set_option maxRecDepth 4000

/-- Python exception classes that the embedded code can raise or propagate. -/
inductive PyError where
  | typeError
  | attributeError
  | indexError
  | transportError
  deriving DecidableEq, Repr

/-- A JSON-like value as produced by `MessageToDict` on a response record:
nested string-keyed mappings with string / integer / boolean / list leaves. -/
inductive JsonVal where
  | str (s : String)
  | num (n : Int)
  | boolVal (b : Bool)
  | obj (entries : List (String × JsonVal))
  | arr (elems : List JsonVal)

/-- Python `value == k` for a candidate list element `value` against a string
`k` (used by the `k in list` membership test): true only for an equal string. -/
def JsonVal.eqStr : JsonVal → String → Bool
  | .str s, k => s == k
  | _, _ => false

/-- Column dtypes that matter to this development: pandas object-like dtypes
versus the `category` dtype produced by `astype('category')`. -/
inductive Dtype where
  | object
  | category
  deriving DecidableEq, Repr

/-- A pandas DataFrame, modelled as ordered column names, their dtypes
(positionally), and row-major cell data.  A cell is `none` for a null. -/
structure DataFrame where
  columns : List String
  dtypes : List Dtype
  rows : List (List (Option JsonVal))

/-- Outcome of consuming the `search_stream` response in `execute_query`:
either the whole stream is consumed, or the stream raises the transient
`exceptions.Unknown` after yielding some records, or it raises some other
exception. -/
inductive StreamOutcome where
  | ok (batches : List (List JsonVal))
  | failUnknown (consumed : List JsonVal)
  | failOther (e : PyError)

/- ---------------------------------------------------------------------
Character-level models of the Python `str` operations used by the code.
Strings are handled as `List Char`; `String` wrappers are provided where
the Python signature takes `str`.
--------------------------------------------------------------------- -/

/-- ASCII test for the regex class `[A-Z]`. -/
def isUpperAZ (c : Char) : Bool := decide ('A' ≤ c ∧ c ≤ 'Z')

/-- ASCII lowercase letter test. -/
def isLowerAZ (c : Char) : Bool := decide ('a' ≤ c ∧ c ≤ 'z')

/-- ASCII digit test. -/
def isDigitC (c : Char) : Bool := decide ('0' ≤ c ∧ c ≤ '9')

/-- Python `str.lower` on one character (ASCII range, as in the source's
field-path strings). -/
def lowerChar (c : Char) : Char :=
  if 'A' ≤ c ∧ c ≤ 'Z' then Char.ofNat (c.toNat + 32) else c

/-- Python capitalisation of one character (ASCII range). -/
def upperChar (c : Char) : Char :=
  if 'a' ≤ c ∧ c ≤ 'z' then Char.ofNat (c.toNat - 32) else c

/-- One step of Python `str.split(sep)` for a non-empty separator, with fuel:
scan for the first occurrence of `sep`, cut there, and continue.  `acc` holds
the (reversed) characters of the chunk being scanned.  With `fuel ≥ length`
the fuel never runs out. -/
def pySplitGo (sep : List Char) : Nat → List Char → List Char → List (List Char)
  | _, acc, [] => [acc.reverse]
  | 0, acc, l => [acc.reverse ++ l]
  | fuel + 1, acc, c :: cs =>
    if sep.isPrefixOf (c :: cs) then
      acc.reverse :: pySplitGo sep fuel [] ((c :: cs).drop sep.length)
    else
      pySplitGo sep fuel (c :: acc) cs

/-- Python `str.split(sep)` (non-empty `sep`), e.g.
`pySplit "FROM" "a FROM b"` gives `["a ", " b"]`. -/
def pySplit (sep l : List Char) : List (List Char) :=
  pySplitGo sep l.length [] l

/-- Python `sep.join(parts)`. -/
def pyJoin (sep : List Char) : List (List Char) → List Char
  | [] => []
  | [w] => w
  | w :: ws => w ++ sep ++ pyJoin sep ws

/-- Python `needle in hay` for two strings: the substring test. -/
def isSubstring (needle : List Char) : List Char → Bool
  | [] => needle.isEmpty
  | c :: cs => needle.isPrefixOf (c :: cs) || isSubstring needle cs

/-- Python `key.split(".")` as used by `get_nested_dict_value`. -/
def splitDots (s : String) : List String :=
  (pySplit ['.'] s.toList).map List.asString

/- ---------------------------------------------------------------------
Embeddings of `google_ads_data/ga_utils.py`.
--------------------------------------------------------------------- -/

/-- `MAX_RESULT_SIZE` from `ga_utils.py`. -/
def MAX_RESULT_SIZE : Nat := 2000000

/-- `CAMPAIGN_FROM_RESOURCE` from `ga_utils.py`. -/
def CAMPAIGN_FROM_RESOURCE : String := "campaign"

/-- `CATEGORICAL_COLS` from `ga_utils.py`. -/
def CATEGORICAL_COLS : List String :=
  [ "ad_group.status",
    "campaign.status",
    "customer.id",
    "customer.status",
    "customer.descriptive_name",
    "ad_group_ad.ad.type",
    "ad_group_ad_asset_view.field_type",
    "ad_group_ad_asset_view.performance_label",
    "ad_group_ad.status" ]

/-- `camel_to_snake`, step 1: the regex substitution
`re.sub(r"(?<!^)(?=[A-Z])", "_", s)` — an underscore is inserted before every
`[A-Z]` character that is not at the start of the string. -/
def insertUnderscores : List Char → List Char
  | [] => []
  | c :: cs => c :: cs.flatMap (fun d => if isUpperAZ d then ['_', d] else [d])

/-- `camel_to_snake` from `ga_utils.py` on characters: insert an underscore
before every non-initial uppercase letter, then `str.lower` the result. -/
def camel_to_snake_list (l : List Char) : List Char :=
  (insertUnderscores l).map lowerChar

/-- `camel_to_snake` from `ga_utils.py`. -/
def camel_to_snake (s : String) : String :=
  (camel_to_snake_list s.toList).asString

/-- Python `str.split("_")` (single-character separator, direct recursion). -/
def splitU : List Char → List (List Char)
  | [] => [[]]
  | c :: cs =>
    match splitU cs with
    | [] => [[]]
    | h :: t => if c = '_' then [] :: h :: t else (c :: h) :: t

/-- Python `str.capitalize`: first character uppercased, the rest lowercased. -/
def capList : List Char → List Char
  | [] => []
  | c :: cs => upperChar c :: cs.map lowerChar

/-- `snake_to_camel` from `ga_utils.py` on characters:
`temp = s.split("_"); temp[0] + "".join(w.capitalize() for w in temp[1:])`. -/
def snake_to_camel_list (l : List Char) : List Char :=
  match splitU l with
  | [] => []
  | h :: t => h ++ (t.map capList).flatten

/-- `snake_to_camel` from `ga_utils.py`. -/
def snake_to_camel (s : String) : String :=
  (snake_to_camel_list s.toList).asString

/-- The loop body chain of `get_nested_dict_value`:
`for k in keys: if k not in value: return None; value = value.get(k)`.
Python semantics of `k in value` / `value.get(k)` per runtime type:
for a dict, key membership and lookup; for a string, `k in value` is a
substring test and `.get` raises `AttributeError`; for a list, `k in value`
is element membership and `.get` raises `AttributeError`; for a number or
boolean, `k in value` raises `TypeError`. -/
def getNestedGo : List String → JsonVal → Except PyError (Option JsonVal)
  | [], v => .ok (some v)
  | k :: ks, v =>
    match v with
    | .obj entries =>
      match entries.find? (fun e => e.1 == k) with
      | none => .ok none
      | some e => getNestedGo ks e.2
    | .str s =>
      if isSubstring k.toList s.toList then .error .attributeError else .ok none
    | .arr elems =>
      if elems.any (fun x => x.eqStr k) then .error .attributeError else .ok none
    | .num _ => .error .typeError
    | .boolVal _ => .error .typeError

/-- `get_nested_dict_value` from `ga_utils.py`. -/
def get_nested_dict_value (key : String) (nested_dict : JsonVal) :
    Except PyError (Option JsonVal) :=
  getNestedGo (splitDots key) nested_dict

/-- The Google Ads API config dict built by `make_base_ga_config_dict` /
`build_config_dict` (the static app keys are not modelled; the fields that
vary are the refresh token and the login customer id). -/
structure ConfigDict where
  refresh_token : String
  login_customer_id : Option String

/-- `build_config_dict` from `ga_utils.py`: `None` when credential resolution
(`cust_id_to_refresh_token`, a mongo lookup modelled by the `refreshToken`
parameter) yields nothing, otherwise the config dict with the login customer
id resolved remotely (modelled by the `loginId` parameter). -/
def build_config_dict (refreshToken : Option String) (loginId : Option String) :
    Option ConfigDict :=
  match refreshToken with
  | none => none
  | some t => some ⟨t, loginId⟩

/-- A `GoogleAdsService` client handle. -/
structure GAService where
  config : ConfigDict

/-- `get_ga_api_service` from `ga_utils.py`: `None` when the config dict could
not be built, otherwise a service client. -/
def get_ga_api_service (refreshToken : Option String) (loginId : Option String) :
    Option GAService :=
  match build_config_dict refreshToken loginId with
  | none => none
  | some cfg => some ⟨cfg⟩

/-- A calendar date (the result of `datetime.date` / truncation of a
`datetime.datetime`). -/
structure Date where
  year : Nat
  month : Nat
  day : Nat
  deriving DecidableEq, Repr

/-- Zero-padding to two digits, as `%m` / `%d` in `strftime`. -/
def pad2 (n : Nat) : String :=
  if n < 10 then "0" ++ toString n else toString n

/-- Zero-padding to four digits, as `%Y` in `strftime`. -/
def pad4 (n : Nat) : String :=
  if n < 10 then "000" ++ toString n
  else if n < 100 then "00" ++ toString n
  else if n < 1000 then "0" ++ toString n
  else toString n

/-- `strftime("%Y-%m-%d")`. -/
def dateStr (d : Date) : String :=
  pad4 d.year ++ "-" ++ pad2 d.month ++ "-" ++ pad2 d.day

/-- Lexicographic order on dates (true calendar order for valid dates). -/
def dateLt (a b : Date) : Bool :=
  a.year < b.year ∨ (a.year = b.year ∧ (a.month < b.month ∨
    (a.month = b.month ∧ a.day < b.day)))

/-- `account_date` (via `account_time`) from `ga_utils.py`: fetches the
account timezone with a `GoogleAdsService` and returns the current date
there.  When the service is `None` (missing credentials), the call
`service.search(...)` raises `AttributeError`.  The date the remote side
reports is the `tzDate` parameter. -/
def account_date (refreshToken loginId : Option String) (tzDate : Date) :
    Except PyError Date :=
  match get_ga_api_service refreshToken loginId with
  | none => .error .attributeError
  | some _ => .ok tzDate

/-- `make_base_query` from `ga_utils.py`.  `account_date` is always called
first to obtain the default date; `start` / `end` default to it when absent
(`datetime` values are already truncated to `Date` in the model). -/
def make_base_query (refreshToken loginId : Option String) (tzDate : Date)
    (from_resource : String) (fields : List String)
    (startOpt endOpt : Option Date) (zero_impressions : Bool) :
    Except PyError String :=
  match account_date refreshToken loginId tzDate with
  | .error e => .error e
  | .ok today =>
    let start := startOpt.getD today
    let stop := endOpt.getD today
    let query := "SELECT " ++ String.intercalate ", " fields
      ++ " FROM " ++ from_resource ++ " "
    let wheres := (if zero_impressions = false then ["metrics.impressions > 0"] else [])
      ++ ["segments.date >= " ++ "\x27" ++ dateStr start ++ "\x27",
          "segments.date <= " ++ "\x27" ++ dateStr stop ++ "\x27"]
    .ok (query ++ " WHERE " ++ String.intercalate " AND " wheres)

/-- `convert_to_category_dtype` from `ga_utils.py`: every column of the frame
whose name is in `CATEGORICAL_COLS` gets dtype `category`; everything else is
untouched (a listed column that is absent from the frame is a no-op). -/
def convert_to_category_dtype (df : DataFrame) : DataFrame :=
  { df with
    dtypes := (df.columns.zip df.dtypes).map
      (fun cd => if CATEGORICAL_COLS.contains cd.1 then Dtype.category else cd.2) }

/-- `pandas.DataFrame(rows, columns=fields)` (inferred per-column dtypes are
abstracted as object-like). -/
def mkDataFrame (fields : List String) (rows : List (List (Option JsonVal))) :
    DataFrame :=
  ⟨fields, List.replicate fields.length Dtype.object, rows⟩

/-- Row extraction in `execute_query`: one row per record, one cell per
camel-cased field, via `get_nested_dict_value`; an exception raised during
extraction propagates. -/
def extractRows (camel_fields : List String) (recs : List JsonVal) :
    Except PyError (List (List (Option JsonVal))) :=
  recs.mapM (fun r => camel_fields.mapM (fun f => get_nested_dict_value f r))

/-- `execute_query` from `ga_utils.py`.  The rows list is filled from the
stream; if the stream raises `exceptions.Unknown` the handler issues a
non-streaming `search` of the same query (its outcome is `retryOut`) and
appends every row of that response to the rows list already accumulated
(the source does not reset `rows` in the handler).  Any other exception, and
any failure of the retry, propagates. -/
def execute_query (refreshToken loginId : Option String) (_query : String)
    (fields : List String) (streamOut : StreamOutcome)
    (retryOut : Except PyError (List JsonVal)) : Except PyError DataFrame :=
  match get_ga_api_service refreshToken loginId with
  | none => .error .attributeError
  | some _ =>
    let camel_fields := fields.map snake_to_camel
    match streamOut with
    | .ok batches =>
      match extractRows camel_fields batches.flatten with
      | .error e => .error e
      | .ok rows => .ok (convert_to_category_dtype (mkDataFrame fields rows))
    | .failUnknown consumed =>
      match extractRows camel_fields consumed with
      | .error e => .error e
      | .ok keptRows =>
        match retryOut with
        | .error e => .error e
        | .ok recs =>
          match extractRows camel_fields recs with
          | .error e => .error e
          | .ok retryRows =>
            .ok (convert_to_category_dtype (mkDataFrame fields (keptRows ++ retryRows)))
    | .failOther e => .error e

/-- The separator `'FROM'` of `query.split('FROM')` in `check_result_size`. -/
def fromSep : List Char := ['F', 'R', 'O', 'M']

/-- The separator `', '` of `query_split[0].split(', ')` in
`check_result_size`. -/
def commaSep : List Char := [',', ' ']

/-- The probe-query surgery of `check_result_size`:
`query_split = query.split('FROM')` and then
`size_query = f"{query_split[0].split(', ')[0]} FROM {query_split[1]}"`;
`none` models the `IndexError` when the query has no `FROM` at all. -/
def size_query_list (q : List Char) : Option (List Char) :=
  match pySplit fromSep q with
  | q0 :: q1 :: _ =>
    some (((pySplit commaSep q0).headD []) ++ (' ' :: fromSep ++ [' ']) ++ q1)
  | _ => none

/-- `check_result_size` from `ga_utils.py`: builds the config dict
(`GoogleAdsClient.load_from_dict(None)` raises when it is `None`), derives
the probe query, and returns the total result count the service reports
(the `totalCount` parameter). -/
def check_result_size (refreshToken loginId : Option String) (query : String)
    (totalCount : Nat) : Except PyError Nat :=
  match build_config_dict refreshToken loginId with
  | none => .error .typeError
  | some _ =>
    match size_query_list query.toList with
    | none => .error .indexError
    | some _ => .ok totalCount

/-- `get_ga_data` from `ga_utils.py`: build the base query, append the extra
`wheres` with `AND` when the list is non-empty, and execute it. -/
def get_ga_data (refreshToken loginId : Option String) (tzDate : Date)
    (from_resource : String) (fields : List String)
    (startOpt endOpt : Option Date) (zero_impressions : Bool)
    (wheres : List String) (streamOut : StreamOutcome)
    (retryOut : Except PyError (List JsonVal)) : Except PyError DataFrame :=
  match make_base_query refreshToken loginId tzDate from_resource fields
      startOpt endOpt zero_impressions with
  | .error e => .error e
  | .ok baseQuery =>
    let query := if wheres.isEmpty then baseQuery
      else baseQuery ++ " AND " ++ String.intercalate " AND " wheres
    execute_query refreshToken loginId query fields streamOut retryOut

/- ---------------------------------------------------------------------
The size-adaptive partitioner.  The repository declares its ingredients
(`MAX_RESULT_SIZE`, `CAMPAIGN_FROM_RESOURCE`, `CAMPAIGN_FIELDS`,
`check_result_size`) but the orchestration that probes the size and splits
the fetch by campaign-id chunks is not among the source files; it is
modelled here from the specification.
--------------------------------------------------------------------- -/

/-- Ceiling division, `ceil(a / b)`. -/
def ceilDiv (a b : Nat) : Nat := (a + b - 1) / b

/-- Contiguous chunks of size `step` (the last chunk may be shorter); `fuel`
is an upper bound on the recursion depth (the list length suffices). -/
def chunkList (step : Nat) : Nat → List Nat → List (List Nat)
  | _, [] => []
  | 0, l => [l]
  | fuel + 1, l => l.take step :: chunkList step fuel (l.drop step)

/-- Modelled from the spec: the partitioner's chunking of the campaign-id
list — `batches = ceil(estimate / MAX_RESULT_SIZE)`,
`step = ceil(num_campaign_ids / batches)`, then contiguous chunks of size
`step`. -/
def campaignIdChunks (estimate : Nat) (ids : List Nat) : List (List Nat) :=
  chunkList (ceilDiv ids.length (ceilDiv estimate MAX_RESULT_SIZE)) ids.length ids

/-- A result row of the main query, keyed by the campaign it belongs to
(`payload` stands for the rest of the row's data). -/
structure GARow where
  campaignId : Nat
  payload : Nat
  deriving DecidableEq, Repr

/-- Modelled from the spec: the remote semantics of one partition sub-query —
the base query extended with a `campaign.id IN (<chunk>)` predicate returns
exactly the rows of the base query's result whose campaign id is in the
chunk, in response order. -/
def subQueryResult (baseResult : List GARow) (chunk : List Nat) : List GARow :=
  baseResult.filter (fun r => chunk.contains r.campaignId)

/-- Modelled from the spec: the partitioned fetch — execute one sub-query per
campaign-id chunk and concatenate the partition results in chunk order. -/
def partitionedFetch (estimate : Nat) (ids : List Nat) (baseResult : List GARow) :
    List GARow :=
  ((campaignIdChunks estimate ids).map (subQueryResult baseResult)).flatten

/-- Modelled from the spec: the size-adaptive `get_ga_data` fetch, missing
from the source files — when the size estimate exceeds `MAX_RESULT_SIZE` and
the resource is in the fixed partitionable allow-list, fetch per campaign-id
chunk and concatenate; otherwise fetch the query once (`baseResult`).
`ids` is the campaign-id list obtained by the auxiliary campaign query. -/
def get_ga_data_adaptive (allowList : List String) (from_resource : String)
    (estimate : Nat) (ids : List Nat) (baseResult : List GARow) : List GARow :=
  if allowList.contains from_resource ∧ MAX_RESULT_SIZE < estimate then
    partitionedFetch estimate ids baseResult
  else
    baseResult

/- ---------------------------------------------------------------------
Definitions used to state the claims themselves.
--------------------------------------------------------------------- -/

/-- The portion of a query from its first `FROM` keyword to the end — the
region holding the FROM clause and the WHERE clause (`none` when the query
has no `FROM`). -/
def fromTail (q : List Char) : Option (List Char) :=
  match pySplit fromSep q with
  | _ :: rest =>
    match rest with
    | [] => none
    | _ :: _ => some (fromSep ++ pyJoin fromSep rest)
  | [] => none

/-- Along the field path, every value that is indexed by a remaining key is a
mapping (a dict); traversal that stops early at a missing key is fine. -/
def keysAllDicts : List String → JsonVal → Bool
  | [], _ => true
  | k :: ks, v =>
    match v with
    | .obj entries =>
      match entries.find? (fun e => e.1 == k) with
      | none => true
      | some e => keysAllDicts ks e.2
    | _ => false

/-- Some key on the field path is missing from the record at its depth (a
non-mapping value holds no keys at all). -/
def someKeyMissing : List String → JsonVal → Bool
  | [], _ => false
  | k :: ks, v =>
    match v with
    | .obj entries =>
      match entries.find? (fun e => e.1 == k) with
      | none => true
      | some e => someKeyMissing ks e.2
    | _ => true

/-- A word of a snake-case field path as claimed: non-empty, all characters
lowercase alphanumeric. -/
def wordOK (w : List Char) : Bool :=
  !w.isEmpty && w.all (fun c => isLowerAZ c || isDigitC c)

/-- A word as the amended claim requires: additionally it begins with a
lowercase letter. -/
def wordOKAmended (w : List Char) : Bool :=
  wordOK w &&
    (match w with
     | [] => false
     | c :: _ => isLowerAZ c)

/-- A field-path shape of the original claim: non-empty list of segments,
each a non-empty list of words. -/
def pathOK (sgs : List (List (List Char))) : Bool :=
  !sgs.isEmpty && sgs.all (fun ws => !ws.isEmpty && ws.all wordOK)

/-- The amended field-path shape: every word begins with a lowercase
letter. -/
def pathOKAmended (sgs : List (List (List Char))) : Bool :=
  !sgs.isEmpty && sgs.all (fun ws => !ws.isEmpty && ws.all wordOKAmended)

/-- Render a segment: its words joined by single underscores. -/
def renderSeg (ws : List (List Char)) : List Char := pyJoin ['_'] ws

/-- Render a field path: its segments joined by dots. -/
def renderPath (sgs : List (List (List Char))) : List Char :=
  pyJoin ['.'] (sgs.map renderSeg)

/-- Numeric reading of a cell, for stating concrete row contents. -/
def cellInt : Option JsonVal → Int
  | some (.num n) => n
  | _ => 0

/-- A character a snake-case field path may contain besides underscores:
lowercase alphanumeric or the segment-separating dot. -/
def plainChar (c : Char) : Bool := isLowerAZ c || isDigitC c || c == '.'

/-- A well-formed underscore-chunk of a rendered field path: non-empty,
made of plain characters, and starting with a lowercase letter. -/
def chunkOK : List Char → Bool
  | [] => false
  | c :: cs => isLowerAZ c && (c :: cs).all plainChar

/-- Merge the last word of the first segment with the first chunk of the
rest of the path through a dot (the underscore-chunks of `a.b` fuse around
the dot). -/
def glueDot : List (List Char) → List (List Char) → List (List Char)
  | [], cs => cs
  | [w], [] => [w ++ ['.']]
  | [w], c :: cs => (w ++ '.' :: c) :: cs
  | w :: v :: ws, cs => w :: glueDot (v :: ws) cs

/-- The underscore-chunks of a rendered field path: the words of its
segments, with adjacent segments' boundary words fused through the dot. -/
def mergeChunks : List (List (List Char)) → List (List Char)
  | [] => []
  | [seg] => seg
  | seg :: rest => glueDot seg (mergeChunks rest)

/-- The query of the worked example (built by `make_base_query` for
`fields=["campaign.id","metrics.impressions"]`, `from_resource="campaign"`,
`start=end=2023-01-01`, `zero_impressions=True`). -/
def exQuery : String :=
  "SELECT campaign.id, metrics.impressions FROM campaign  WHERE segments.date >= \x272023-01-01\x27 AND segments.date <= \x272023-01-01\x27"

/- ---------------------------------------------------------------------
Helper lemmas: ASCII case arithmetic.
--------------------------------------------------------------------- -/

theorem toNat_ofNat_small (n : Nat) (h : n < 55296) : (Char.ofNat n).toNat = n := by
  have hv : n.isValidChar := Or.inl h
  simp only [Char.ofNat, hv, dif_pos, Char.ofNatAux, Char.toNat]
  show (UInt32.ofNat' n _).toNat = n
  simp [UInt32.ofNat', UInt32.toNat, BitVec.toNat_ofNatLt]

theorem char_toNat_inj {a b : Char} (h : a.toNat = b.toNat) : a = b := by
  rw [← Char.ofNat_toNat a, ← Char.ofNat_toNat b, h]

theorem le_char_iff_toNat {a c : Char} : a ≤ c ↔ a.toNat ≤ c.toNat := by
  rw [Char.le_def]
  exact Iff.rfl

theorem isLowerAZ_toNat {c : Char} (h : isLowerAZ c = true) :
    97 ≤ c.toNat ∧ c.toNat ≤ 122 := by
  have h2 := of_decide_eq_true h
  exact ⟨le_char_iff_toNat.mp h2.1, le_char_iff_toNat.mp h2.2⟩

theorem isUpperAZ_toNat_iff {c : Char} :
    isUpperAZ c = true ↔ 65 ≤ c.toNat ∧ c.toNat ≤ 90 := by
  constructor
  · intro h
    have h2 := of_decide_eq_true h
    exact ⟨le_char_iff_toNat.mp h2.1, le_char_iff_toNat.mp h2.2⟩
  · intro h
    exact decide_eq_true ⟨le_char_iff_toNat.mpr h.1, le_char_iff_toNat.mpr h.2⟩

theorem isDigitC_toNat {c : Char} (h : isDigitC c = true) :
    48 ≤ c.toNat ∧ c.toNat ≤ 57 := by
  have h2 := of_decide_eq_true h
  exact ⟨le_char_iff_toNat.mp h2.1, le_char_iff_toNat.mp h2.2⟩

theorem upperChar_toNat {c : Char} (h : isLowerAZ c = true) :
    (upperChar c).toNat = c.toNat - 32 := by
  obtain ⟨h1, h2⟩ := isLowerAZ_toNat h
  rw [upperChar, if_pos (of_decide_eq_true h)]
  exact toNat_ofNat_small _ (by omega)

theorem isUpperAZ_upperChar {c : Char} (h : isLowerAZ c = true) :
    isUpperAZ (upperChar c) = true := by
  obtain ⟨h1, h2⟩ := isLowerAZ_toNat h
  rw [isUpperAZ_toNat_iff, upperChar_toNat h]
  omega

theorem lowerChar_eq_self {c : Char} (h : isUpperAZ c = false) : lowerChar c = c := by
  rw [lowerChar, if_neg]
  intro hc
  rw [isUpperAZ_toNat_iff.mpr ⟨le_char_iff_toNat.mp hc.1, le_char_iff_toNat.mp hc.2⟩] at h
  cases h

theorem lowerChar_upperChar {c : Char} (h : isLowerAZ c = true) :
    lowerChar (upperChar c) = c := by
  obtain ⟨h1, h2⟩ := isLowerAZ_toNat h
  have hu := isUpperAZ_toNat_iff.mp (isUpperAZ_upperChar h)
  rw [lowerChar, if_pos ⟨le_char_iff_toNat.mpr hu.1, le_char_iff_toNat.mpr hu.2⟩]
  apply char_toNat_inj
  rw [toNat_ofNat_small _ (by omega), upperChar_toNat h]
  omega

theorem isUpperAZ_of_plain {c : Char} (h : plainChar c = true) :
    isUpperAZ c = false := by
  cases hu : isUpperAZ c
  · rfl
  · exfalso
    obtain ⟨h3, h4⟩ := isUpperAZ_toNat_iff.mp hu
    rw [plainChar] at h
    rcases Bool.or_eq_true_iff.mp h with h5 | h6
    · rcases Bool.or_eq_true_iff.mp h5 with hl | hd
      · obtain ⟨h1, h2⟩ := isLowerAZ_toNat hl
        omega
      · obtain ⟨h1, h2⟩ := isDigitC_toNat hd
        omega
    · have hdot : c = '.' := beq_iff_eq.mp h6
      subst hdot
      exact absurd hu (by decide)

/- ---------------------------------------------------------------------
Helper lemmas: `pySplit` / `pyJoin`.
--------------------------------------------------------------------- -/

theorem pySplitGo_ne_nil (sep : List Char) (fuel : Nat) (acc l : List Char) :
    pySplitGo sep fuel acc l ≠ [] := by
  induction fuel generalizing acc l with
  | zero => cases l <;> simp [pySplitGo]
  | succ n ih =>
    cases l with
    | nil => simp [pySplitGo]
    | cons c cs =>
      rw [pySplitGo]
      split
      · simp
      · exact ih _ _

theorem pyJoin_cons_cons (sep : List Char) (w : List Char) (ws : List (List Char))
    (h : ws ≠ []) : pyJoin sep (w :: ws) = w ++ sep ++ pyJoin sep ws := by
  cases ws with
  | nil => exact absurd rfl h
  | cons v vs => rfl

theorem append_drop_of_isPrefixOf {sep l : List Char} (h : sep.isPrefixOf l = true) :
    sep ++ l.drop sep.length = l := by
  obtain ⟨t, ht⟩ := List.isPrefixOf_iff_prefix.mp h
  subst ht
  rw [List.drop_left]

theorem pyJoin_pySplitGo (sep : List Char) (hsep : sep ≠ []) (fuel : Nat) :
    ∀ (acc l : List Char), l.length ≤ fuel →
      pyJoin sep (pySplitGo sep fuel acc l) = acc.reverse ++ l := by
  induction fuel with
  | zero =>
    intro acc l hl
    have hn : l = [] := List.eq_nil_of_length_eq_zero (Nat.le_zero.mp hl)
    subst hn
    simp [pySplitGo, pyJoin]
  | succ n ih =>
    intro acc l hl
    cases l with
    | nil => simp [pySplitGo, pyJoin]
    | cons c cs =>
      rw [pySplitGo]
      split
      · next hpre =>
        rw [pyJoin_cons_cons sep _ _ (pySplitGo_ne_nil _ _ _ _)]
        have hlen : ((c :: cs).drop sep.length).length ≤ n := by
          rw [List.length_drop]
          have : 1 ≤ sep.length := by
            cases sep with
            | nil => exact absurd rfl hsep
            | cons x xs => simp
          simp only [List.length_cons] at hl ⊢
          omega
        rw [ih [] _ hlen, List.reverse_nil, List.nil_append,
          List.append_assoc, append_drop_of_isPrefixOf hpre]
      · next =>
        rw [ih (c :: acc) cs (by simpa using hl)]
        simp

theorem pyJoin_pySplit (sep : List Char) (hsep : sep ≠ []) (l : List Char) :
    pyJoin sep (pySplit sep l) = l := by
  rw [pySplit, pyJoin_pySplitGo sep hsep l.length [] l (Nat.le_refl _),
    List.reverse_nil, List.nil_append]

theorem pySplit_headD_prefix (sep : List Char) (hsep : sep ≠ []) (l : List Char) :
    (pySplit sep l).headD [] <+: l := by
  have hjoin := pyJoin_pySplit sep hsep l
  cases hh : pySplit sep l with
  | nil => exact absurd hh (pySplitGo_ne_nil _ _ _ _)
  | cons h t =>
    rw [hh] at hjoin
    cases t with
    | nil =>
      simp only [pyJoin] at hjoin
      simp [hjoin]
    | cons v vs =>
      rw [pyJoin_cons_cons sep _ _ (by simp)] at hjoin
      exact ⟨sep ++ pyJoin sep (v :: vs), by rw [← hjoin]; simp [List.append_assoc]⟩

/- ---------------------------------------------------------------------
Helper lemmas: campaign-id chunking and row counting.
--------------------------------------------------------------------- -/

theorem chunkList_flatten (step : Nat) (hstep : 0 < step) (fuel : Nat) :
    ∀ l : List Nat, l.length ≤ fuel → (chunkList step fuel l).flatten = l := by
  induction fuel with
  | zero =>
    intro l hl
    have hn : l = [] := List.eq_nil_of_length_eq_zero (Nat.le_zero.mp hl)
    subst hn
    simp [chunkList]
  | succ n ih =>
    intro l hl
    cases l with
    | nil => simp [chunkList]
    | cons x xs =>
      rw [chunkList, List.flatten_cons]
      · rw [ih _ (by rw [List.length_drop]; simp only [List.length_cons] at hl ⊢; omega)]
        exact List.take_append_drop step (x :: xs)
      · simp

theorem countP_or_of_disjoint {α : Type} (p q : α → Bool) (l : List α)
    (h : ∀ a ∈ l, ¬(p a = true ∧ q a = true)) :
    l.countP (fun a => p a || q a) = l.countP p + l.countP q := by
  induction l with
  | nil => simp
  | cons x xs ih =>
    simp only [List.countP_cons]
    rw [ih (fun a ha => h a (List.mem_cons_of_mem _ ha))]
    have hx := h x (List.mem_cons_self _ _)
    cases hp : p x <;> cases hq : q x <;> simp [hp, hq] at hx ⊢ <;> omega

theorem flatten_filter_length (rows : List GARow) :
    ∀ chunks : List (List Nat), chunks.flatten.Nodup →
      ((chunks.map (subQueryResult rows)).flatten).length
        = rows.countP (fun r => chunks.flatten.contains r.campaignId) := by
  intro chunks
  induction chunks with
  | nil => simp
  | cons c cs ih =>
    intro hnd
    rw [List.flatten_cons] at hnd
    obtain ⟨hndc, hndcs, hdisj⟩ := List.nodup_append.mp hnd
    rw [List.map_cons, List.flatten_cons, List.length_append, ih hndcs]
    rw [subQueryResult, ← List.countP_eq_length_filter]
    have hcont : (fun r : GARow => ((c :: cs).flatten).contains r.campaignId)
        = (fun r : GARow => c.contains r.campaignId || (cs.flatten).contains r.campaignId) := by
      funext r
      rw [List.flatten_cons]
      simp [List.contains, List.elem_eq_mem]
    rw [hcont, countP_or_of_disjoint]
    intro r _ hboth
    exact hdisj (List.elem_iff.mp hboth.1) (List.elem_iff.mp hboth.2)

/- ---------------------------------------------------------------------
Claim C1.
--------------------------------------------------------------------- -/

/-- C1: for every `get_ga_data` fetch whose size estimate exceeds
`MAX_RESULT_SIZE` with `from_resource` in the partitionable allow-list, the
fetch is split into per-campaign-id-chunk sub-queries, and the concatenated
row count across partitions equals the row count of a single unpartitioned
fetch of the same query — given that the campaign-id list is duplicate-free
and covers the campaign id of every result row. -/
theorem c1_partitioned_row_count (allowList : List String) (from_resource : String)
    (estimate : Nat) (ids : List Nat) (baseResult : List GARow)
    (hallow : allowList.contains from_resource = true)
    (hbig : MAX_RESULT_SIZE < estimate)
    (hnodup : ids.Nodup)
    (hcover : ∀ r ∈ baseResult, r.campaignId ∈ ids) :
    get_ga_data_adaptive allowList from_resource estimate ids baseResult
        = partitionedFetch estimate ids baseResult
      ∧ (partitionedFetch estimate ids baseResult).length = baseResult.length := by
  have hflat : (campaignIdChunks estimate ids).flatten = ids := by
    cases ids with
    | nil => simp [campaignIdChunks, chunkList]
    | cons i is =>
      have hb : 0 < ceilDiv estimate MAX_RESULT_SIZE := by
        rw [ceilDiv]
        refine Nat.div_pos ?_ ?_
        · rw [MAX_RESULT_SIZE] at hbig ⊢
          omega
        · rw [MAX_RESULT_SIZE]
          omega
      have hstep : 0 < ceilDiv (i :: is).length (ceilDiv estimate MAX_RESULT_SIZE) := by
        rw [ceilDiv]
        refine Nat.div_pos ?_ hb
        simp only [List.length_cons]
        omega
      exact chunkList_flatten _ hstep _ _ (Nat.le_refl _)
  constructor
  · rw [get_ga_data_adaptive, if_pos ⟨hallow, hbig⟩]
  · rw [partitionedFetch, flatten_filter_length baseResult _ (by rw [hflat]; exact hnodup)]
    rw [hflat]
    apply List.countP_eq_length.mpr
    intro r hr
    exact List.elem_iff.mpr (hcover r hr)

/-- Witness for C1 at a concrete input: estimate 2000001 over three campaign
ids splits into chunks `[[10, 20], [30]]` and the partitioned row count
equals the unpartitioned one. -/
theorem c1_partitioned_row_count_witness :
    (["keyword_view"].contains "keyword_view" = true)
    ∧ MAX_RESULT_SIZE < 2000001
    ∧ ([10, 20, 30] : List Nat).Nodup
    ∧ (∀ r ∈ ([⟨10, 0⟩, ⟨20, 1⟩, ⟨10, 2⟩] : List GARow), r.campaignId ∈ [10, 20, 30])
    ∧ (get_ga_data_adaptive ["keyword_view"] "keyword_view" 2000001 [10, 20, 30]
          [⟨10, 0⟩, ⟨20, 1⟩, ⟨10, 2⟩]
        = partitionedFetch 2000001 [10, 20, 30] [⟨10, 0⟩, ⟨20, 1⟩, ⟨10, 2⟩]
      ∧ (partitionedFetch 2000001 [10, 20, 30] [⟨10, 0⟩, ⟨20, 1⟩, ⟨10, 2⟩]).length
        = ([⟨10, 0⟩, ⟨20, 1⟩, ⟨10, 2⟩] : List GARow).length) :=
  ⟨by decide, by decide, by decide, by decide,
    c1_partitioned_row_count ["keyword_view"] "keyword_view" 2000001 [10, 20, 30]
      [⟨10, 0⟩, ⟨20, 1⟩, ⟨10, 2⟩] (by decide) (by decide) (by decide) (by decide)⟩

/- ---------------------------------------------------------------------
Claim C2.
--------------------------------------------------------------------- -/

/-- C2 (failing input): when the stream raises the transient Unknown error
after yielding the record for campaign 1 and the non-streaming retry of the
same query returns both records, `execute_query` keeps the partially
extracted row and appends the full retry extraction, producing three rows
`[[1], [1], [2]]` — the claimed abandonment of the partial stream would give
`[[1], [2]]`. -/
theorem c2_retry_keeps_partial_rows :
    (execute_query (some "token") none "q" ["campaign.id"]
        (.failUnknown [JsonVal.obj [("campaign", .obj [("id", .num 1)])]])
        (.ok [JsonVal.obj [("campaign", .obj [("id", .num 1)])],
              JsonVal.obj [("campaign", .obj [("id", .num 2)])]])).map
      (fun df => df.rows.map (fun r => r.map cellInt)) = .ok [[1], [1], [2]] := rfl

/- ---------------------------------------------------------------------
Claim C4.
--------------------------------------------------------------------- -/

/-- C4: for `fields=["campaign.id","metrics.impressions"]`,
`from_resource="campaign"`, `start=end=2023-01-01` and
`zero_impressions=true`, `make_base_query` returns exactly the claimed
string — double space before `WHERE` included, impressions predicate
omitted (for any credentials and any account date, which is unused when
both dates are given). -/
theorem c4_example_query (t : String) (li : Option String) (d : Date) :
    make_base_query (some t) li d "campaign" ["campaign.id", "metrics.impressions"]
        (some ⟨2023, 1, 1⟩) (some ⟨2023, 1, 1⟩) true
      = .ok exQuery := by
  rw [make_base_query, account_date, get_ga_api_service, build_config_dict]
  dsimp only [Option.getD]
  exact congrArg Except.ok (by decide)

/- ---------------------------------------------------------------------
Claim C7.
--------------------------------------------------------------------- -/

/-- C7 (counterexample): with credential resolution yielding nothing,
`execute_query` raises (`service.search_stream` on `None` is an
`AttributeError`) instead of returning a null/empty result. -/
theorem c7_counterexample :
    execute_query none none "SELECT campaign.id FROM campaign" ["campaign.id"]
        (.ok []) (.ok []) = .error .attributeError := rfl

/-- C7 (amended): when credential resolution yields nothing,
`build_config_dict` and `get_ga_api_service` return `None`; but
`execute_query`, `check_result_size` and `get_ga_data` raise (an attribute
or type error on the missing service/config) rather than returning a
null/empty result. -/
theorem c7_missing_credentials :
    (∀ li, build_config_dict none li = none)
    ∧ (∀ li, get_ga_api_service none li = none)
    ∧ (∀ li q fields so ro,
        execute_query none li q fields so ro = .error .attributeError)
    ∧ (∀ li q n, check_result_size none li q n = .error .typeError)
    ∧ (∀ li d fr fields st en zi wh so ro,
        get_ga_data none li d fr fields st en zi wh so ro = .error .attributeError) :=
  ⟨fun _ => rfl, fun _ => rfl, fun _ _ _ _ _ => rfl, fun _ _ _ => rfl,
    fun _ _ _ _ _ _ _ _ _ _ => rfl⟩

/- ---------------------------------------------------------------------
Claim C3.
--------------------------------------------------------------------- -/

/-- C3 (counterexample): already on the worked-example query the probe query
is NOT byte-for-byte identical from `FROM` on — the f-string re-inserts
`" FROM "` in front of a fragment that already starts with a space, so the
probe reads `FROM  campaign` (two spaces) where the original reads
`FROM campaign`. -/
theorem c3_counterexample :
    fromTail exQuery.toList
        = some ("FROM campaign  WHERE segments.date >= \x272023-01-01\x27 AND segments.date <= \x272023-01-01\x27".toList)
      ∧ (size_query_list exQuery.toList).bind fromTail
        = some ("FROM  campaign  WHERE segments.date >= \x272023-01-01\x27 AND segments.date <= \x272023-01-01\x27".toList)
      ∧ (size_query_list exQuery.toList).bind fromTail ≠ fromTail exQuery.toList :=
  ⟨by decide, by decide, by decide⟩

/-- C3 (amended): for every query in which `FROM` occurs exactly once, the
probe query consists of a prefix of the original SELECT clause (its first
`", "`-chunk), the keyword `FROM` with one extra space inserted before the
original separator space, and then, byte for byte, the entire original text
that followed `FROM` — in particular the whole WHERE clause unchanged. -/
theorem c3_probe_preserves_tail (q a b : List Char)
    (h : pySplit fromSep q = [a, b]) :
    q = a ++ fromSep ++ b
      ∧ size_query_list q
        = some ((pySplit commaSep a).headD [] ++ (' ' :: fromSep ++ [' ']) ++ b)
      ∧ (pySplit commaSep a).headD [] <+: a := by
  refine ⟨?_, ?_, pySplit_headD_prefix commaSep (by decide) a⟩
  · have hj := pyJoin_pySplit fromSep (by decide) q
    rw [h] at hj
    exact hj.symm
  · simp [size_query_list, h]

/-- Witness for C3 (amended) at a concrete query with one `FROM`. -/
theorem c3_probe_preserves_tail_witness :
    pySplit fromSep "SELECT a, b FROM t WHERE x".toList
        = ["SELECT a, b ".toList, " t WHERE x".toList]
      ∧ ("SELECT a, b FROM t WHERE x".toList
          = "SELECT a, b ".toList ++ fromSep ++ " t WHERE x".toList
        ∧ size_query_list "SELECT a, b FROM t WHERE x".toList
          = some ((pySplit commaSep "SELECT a, b ".toList).headD []
              ++ (' ' :: fromSep ++ [' ']) ++ " t WHERE x".toList)
        ∧ (pySplit commaSep "SELECT a, b ".toList).headD [] <+: "SELECT a, b ".toList) :=
  ⟨by decide, c3_probe_preserves_tail _ _ _ (by decide)⟩

/- ---------------------------------------------------------------------
Claim C5.
--------------------------------------------------------------------- -/

/-- Helper: every successful `execute_query` result has exactly the requested
fields as its column headers. -/
theorem execute_query_ok_columns {rt li : Option String} {q : String}
    {fields : List String} {so : StreamOutcome}
    {ro : Except PyError (List JsonVal)} {df : DataFrame}
    (h : execute_query rt li q fields so ro = .ok df) : df.columns = fields := by
  cases hsvc : get_ga_api_service rt li with
  | none =>
    rw [execute_query, hsvc] at h
    exact absurd h (by simp)
  | some svc =>
    rw [execute_query, hsvc] at h
    cases so with
    | ok batches =>
      dsimp only at h
      cases hex : extractRows (List.map snake_to_camel fields) batches.flatten with
      | error e =>
        rw [hex] at h
        exact absurd h (by simp)
      | ok rows =>
        rw [hex] at h
        injection h with h2
        rw [← h2]
        rfl
    | failUnknown consumed =>
      dsimp only at h
      cases hex : extractRows (List.map snake_to_camel fields) consumed with
      | error e =>
        rw [hex] at h
        exact absurd h (by simp)
      | ok keptRows =>
        rw [hex] at h
        dsimp only at h
        cases ro with
        | error e => exact absurd h (by simp)
        | ok recs =>
          dsimp only at h
          cases hex2 : extractRows (List.map snake_to_camel fields) recs with
          | error e =>
            rw [hex2] at h
            exact absurd h (by simp)
          | ok retryRows =>
            rw [hex2] at h
            injection h with h2
            rw [← h2]
            rfl
    | failOther e => exact absurd h (by simp)

/-- Helper: every successful `get_ga_data` result has exactly the requested
fields as its column headers. -/
theorem get_ga_data_ok_columns {rt li : Option String} {d : Date}
    {fr : String} {fields : List String} {st en : Option Date} {zi : Bool}
    {wh : List String} {so : StreamOutcome}
    {ro : Except PyError (List JsonVal)} {df : DataFrame}
    (h : get_ga_data rt li d fr fields st en zi wh so ro = .ok df) :
    df.columns = fields := by
  rw [get_ga_data] at h
  split at h
  · cases h
  · exact execute_query_ok_columns h

/-- C5: for every field list and every environment outcome (empty result
sets included), a DataFrame returned by `execute_query` or by `get_ga_data`
has column headers equal to the requested field list, in the original
order. -/
theorem c5_columns_equal_fields :
    (∀ (rt li : Option String) (q : String) (fields : List String)
        (so : StreamOutcome) (ro : Except PyError (List JsonVal)) (df : DataFrame),
      execute_query rt li q fields so ro = .ok df → df.columns = fields)
    ∧ (∀ (rt li : Option String) (d : Date) (fr : String) (fields : List String)
        (st en : Option Date) (zi : Bool) (wh : List String) (so : StreamOutcome)
        (ro : Except PyError (List JsonVal)) (df : DataFrame),
      get_ga_data rt li d fr fields st en zi wh so ro = .ok df →
        df.columns = fields) :=
  ⟨fun _ _ _ _ _ _ _ h => execute_query_ok_columns h,
   fun _ _ _ _ _ _ _ _ _ _ _ _ h => get_ga_data_ok_columns h⟩

/-- Witness for C5 at concrete inputs, one with an empty result set. -/
theorem c5_columns_equal_fields_witness :
    (execute_query (some "t") none "q" ["campaign.id", "metrics.impressions"]
        (.ok []) (.ok [])
      = .ok ⟨["campaign.id", "metrics.impressions"], [Dtype.object, Dtype.object], []⟩)
    ∧ (⟨["campaign.id", "metrics.impressions"], [Dtype.object, Dtype.object], []⟩
        : DataFrame).columns = ["campaign.id", "metrics.impressions"]
    ∧ (get_ga_data (some "t") none ⟨2023, 1, 1⟩ "campaign" ["campaign.id"]
        (some ⟨2023, 1, 1⟩) (some ⟨2023, 1, 1⟩) true [] (.ok []) (.ok [])
      = .ok ⟨["campaign.id"], [Dtype.object], []⟩)
    ∧ (⟨["campaign.id"], [Dtype.object], []⟩ : DataFrame).columns = ["campaign.id"] :=
  ⟨rfl,
   c5_columns_equal_fields.1 (some "t") none "q" ["campaign.id", "metrics.impressions"]
     (.ok []) (.ok []) _ rfl,
   rfl,
   c5_columns_equal_fields.2 (some "t") none ⟨2023, 1, 1⟩ "campaign" ["campaign.id"]
     (some ⟨2023, 1, 1⟩) (some ⟨2023, 1, 1⟩) true [] (.ok []) (.ok []) _ rfl⟩

/- ---------------------------------------------------------------------
Claim C6.
--------------------------------------------------------------------- -/

/-- Helper: over keys that only ever index mappings, a missing key makes the
traversal return `None` without an error. -/
theorem getNestedGo_missing :
    ∀ (ks : List String) (v : JsonVal), keysAllDicts ks v = true →
      someKeyMissing ks v = true → getNestedGo ks v = .ok none := by
  intro ks
  induction ks with
  | nil =>
    intro v _ hm
    simp [someKeyMissing] at hm
  | cons k ks ih =>
    intro v hd hm
    cases v with
    | obj entries =>
      cases hf : entries.find? (fun e => e.1 == k) with
      | none => simp [getNestedGo, hf]
      | some e =>
        rw [keysAllDicts, hf] at hd
        rw [someKeyMissing, hf] at hm
        simp only [getNestedGo, hf]
        exact ih e.2 hd hm
    | str s => simp [keysAllDicts] at hd
    | num n => simp [keysAllDicts] at hd
    | boolVal b => simp [keysAllDicts] at hd
    | arr a => simp [keysAllDicts] at hd

/-- C6 (counterexample): for the record `{"a": 5}` and the path `"a.b"` the
key `b` is missing at depth 1, yet the code raises a `TypeError`
(`"b" in 5` is a Python `TypeError`) instead of returning `None`. -/
theorem c6_counterexample :
    someKeyMissing (splitDots "a.b") (JsonVal.obj [("a", .num 5)]) = true
    ∧ get_nested_dict_value "a.b" (JsonVal.obj [("a", .num 5)]) = .error .typeError
    ∧ get_nested_dict_value "a.b" (JsonVal.obj [("a", .num 5)]) ≠ .ok none :=
  ⟨rfl, rfl, fun h => Except.noConfusion h⟩

/-- C6 (amended): for every dot-separated field path and every nested record
in which each value indexed along the path is a mapping, a key missing at
any depth makes `get_nested_dict_value` return `None` and raise no error. -/
theorem c6_missing_key_yields_none (key : String) (v : JsonVal)
    (hdict : keysAllDicts (splitDots key) v = true)
    (hmiss : someKeyMissing (splitDots key) v = true) :
    get_nested_dict_value key v = .ok none :=
  getNestedGo_missing (splitDots key) v hdict hmiss

/-- Witness for C6 (amended) at a concrete record and path. -/
theorem c6_missing_key_yields_none_witness :
    keysAllDicts (splitDots "a.b") (JsonVal.obj [("a", .obj [])]) = true
    ∧ someKeyMissing (splitDots "a.b") (JsonVal.obj [("a", .obj [])]) = true
    ∧ get_nested_dict_value "a.b" (JsonVal.obj [("a", .obj [])]) = .ok none :=
  ⟨rfl, rfl, c6_missing_key_yields_none "a.b" (JsonVal.obj [("a", .obj [])]) rfl rfl⟩

/- ---------------------------------------------------------------------
Claim C10.
--------------------------------------------------------------------- -/

/-- Helper: positional dtype rule of `convert_to_category_dtype`. -/
theorem zipmap_dtypes_getD (cols : List String) (dts : List Dtype) (i : Nat)
    (h : cols.length = dts.length) (hi : i < dts.length) :
    ((cols.zip dts).map
        (fun cd => if CATEGORICAL_COLS.contains cd.1 then Dtype.category else cd.2)).getD
      i Dtype.object
      = if CATEGORICAL_COLS.contains (cols.getD i "") then Dtype.category
        else dts.getD i Dtype.object := by
  induction cols generalizing dts i with
  | nil =>
    cases dts with
    | nil => simp at hi
    | cons d ds => simp at h
  | cons c cs ih =>
    cases dts with
    | nil => simp at h
    | cons d ds =>
      cases i with
      | zero => simp [List.getD]
      | succ n =>
        simp only [List.zip_cons_cons, List.map_cons, List.getD_cons_succ]
        exact ih ds n (by simpa using h) (by simpa using hi)

/-- C10: `convert_to_category_dtype` leaves the column list, the rows and
every cell untouched, and changes only the dtypes: a column whose name is in
`CATEGORICAL_COLS` becomes `category`, every other column keeps its dtype —
and a listed column that is absent from the frame is simply not involved
(no error). -/
theorem c10_convert_only_dtypes (df : DataFrame)
    (h : df.columns.length = df.dtypes.length) :
    (convert_to_category_dtype df).columns = df.columns
    ∧ (convert_to_category_dtype df).rows = df.rows
    ∧ (convert_to_category_dtype df).dtypes.length = df.dtypes.length
    ∧ ∀ i, i < df.dtypes.length →
        (convert_to_category_dtype df).dtypes.getD i Dtype.object
          = if CATEGORICAL_COLS.contains (df.columns.getD i "") then Dtype.category
            else df.dtypes.getD i Dtype.object := by
  refine ⟨rfl, rfl, ?_, ?_⟩
  · rw [convert_to_category_dtype]
    simp [List.length_zip, h]
  · intro i hi
    exact zipmap_dtypes_getD df.columns df.dtypes i h hi

/-- Witness for C10 at a concrete frame: `campaign.status` becomes
`category`, other columns keep their dtype, and the absent listed columns
cause no change at all. -/
theorem c10_convert_only_dtypes_witness :
    (⟨["campaign.status", "metrics.impressions"], [Dtype.object, Dtype.object],
        [[some (.str "ENABLED"), some (.num 3)]]⟩ : DataFrame).columns.length
      = (⟨["campaign.status", "metrics.impressions"], [Dtype.object, Dtype.object],
          [[some (.str "ENABLED"), some (.num 3)]]⟩ : DataFrame).dtypes.length
    ∧ ((convert_to_category_dtype
          ⟨["campaign.status", "metrics.impressions"], [Dtype.object, Dtype.object],
            [[some (.str "ENABLED"), some (.num 3)]]⟩).columns
        = ["campaign.status", "metrics.impressions"]
      ∧ (convert_to_category_dtype
          ⟨["campaign.status", "metrics.impressions"], [Dtype.object, Dtype.object],
            [[some (.str "ENABLED"), some (.num 3)]]⟩).dtypes
        = [Dtype.category, Dtype.object]) :=
  ⟨rfl,
   (c10_convert_only_dtypes
      ⟨["campaign.status", "metrics.impressions"], [Dtype.object, Dtype.object],
        [[some (.str "ENABLED"), some (.num 3)]]⟩ rfl).1,
   rfl⟩

/- ---------------------------------------------------------------------
Claim C8.
--------------------------------------------------------------------- -/

/-- C8: for start > end no validation happens and no error is raised —
`make_base_query` returns the very same well-formed query string the
formula gives for any date pair, with both date predicates emitted from the
given start and end values as-is (the order hypothesis is never consulted). -/
theorem c8_no_date_validation (t : String) (li : Option String) (d : Date)
    (fr : String) (fields : List String) (s e : Date) (zi : Bool)
    (_h : dateLt e s = true) :
    make_base_query (some t) li d fr fields (some s) (some e) zi
      = .ok ("SELECT " ++ String.intercalate ", " fields ++ " FROM " ++ fr ++ " "
          ++ " WHERE " ++ String.intercalate " AND "
            ((if zi = false then ["metrics.impressions > 0"] else [])
              ++ ["segments.date >= " ++ "\x27" ++ dateStr s ++ "\x27",
                  "segments.date <= " ++ "\x27" ++ dateStr e ++ "\x27"])) := by
  rw [make_base_query, account_date, get_ga_api_service, build_config_dict]
  dsimp only [Option.getD]

/-- Witness for C8 with start 2023-02-01 strictly after end 2023-01-01. -/
theorem c8_no_date_validation_witness :
    dateLt ⟨2023, 1, 1⟩ ⟨2023, 2, 1⟩ = true
    ∧ make_base_query (some "t") none ⟨2024, 1, 1⟩ "campaign" ["campaign.id"]
        (some ⟨2023, 2, 1⟩) (some ⟨2023, 1, 1⟩) false
      = .ok "SELECT campaign.id FROM campaign  WHERE metrics.impressions > 0 AND segments.date >= \x272023-02-01\x27 AND segments.date <= \x272023-01-01\x27" :=
  ⟨by decide,
   (c8_no_date_validation "t" none ⟨2024, 1, 1⟩ "campaign" ["campaign.id"]
      ⟨2023, 2, 1⟩ ⟨2023, 1, 1⟩ false (by decide)).trans
     (congrArg Except.ok (by decide))⟩

/- ---------------------------------------------------------------------
Helper lemmas for claim C9: underscore chunks of a rendered field path.
--------------------------------------------------------------------- -/

theorem plain_ne_usc {c : Char} (h : plainChar c = true) : c ≠ '_' := by
  intro heq
  subst heq
  exact absurd h (by decide)

theorem map_lower_plain {l : List Char} (h : l.all plainChar = true) :
    l.map lowerChar = l := by
  induction l with
  | nil => rfl
  | cons c cs ih =>
    rw [List.all_cons, Bool.and_eq_true] at h
    rw [List.map_cons, lowerChar_eq_self (isUpperAZ_of_plain h.1), ih h.2]

theorem splitU_ne_nil (l : List Char) : splitU l ≠ [] := by
  induction l with
  | nil => simp [splitU]
  | cons c cs ih =>
    rw [splitU]
    cases hs : splitU cs with
    | nil => simp
    | cons h t =>
      by_cases hc : c = '_' <;> simp [hc]

theorem splitU_append (w : List Char) (hw : ∀ c ∈ w, c ≠ '_') :
    ∀ (l h : List Char) (t : List (List Char)), splitU l = h :: t →
      splitU (w ++ l) = (w ++ h) :: t := by
  induction w with
  | nil =>
    intro l h t hl
    simpa using hl
  | cons c w ih =>
    intro l h t hl
    have hc : c ≠ '_' := hw c (List.mem_cons_self _ _)
    have hih := ih (fun d hd => hw d (List.mem_cons_of_mem _ hd)) l h t hl
    rw [List.cons_append, splitU, hih]
    simp [hc]

theorem splitU_usc_cons (l : List Char) : splitU ('_' :: l) = [] :: splitU l := by
  cases hs : splitU l with
  | nil => exact absurd hs (splitU_ne_nil l)
  | cons h t =>
    rw [splitU, hs]
    simp

theorem splitU_pyJoin :
    ∀ chunks : List (List Char), chunks ≠ [] →
      (∀ ch ∈ chunks, ∀ c ∈ ch, c ≠ '_') →
      splitU (pyJoin ['_'] chunks) = chunks := by
  intro chunks
  induction chunks with
  | nil => intro h; exact absurd rfl h
  | cons ch rest ih =>
    intro _ hw
    cases rest with
    | nil =>
      have : splitU (ch ++ []) = (ch ++ []) :: [] :=
        splitU_append ch (hw ch (List.mem_cons_self _ _)) [] [] [] rfl
      simpa [pyJoin] using this
    | cons ch2 rest2 =>
      rw [pyJoin_cons_cons _ _ _ (by simp)]
      have hrest : splitU (pyJoin ['_'] (ch2 :: rest2)) = ch2 :: rest2 :=
        ih (by simp) (fun x hx => hw x (List.mem_cons_of_mem _ hx))
      have husc : splitU ('_' :: pyJoin ['_'] (ch2 :: rest2))
          = [] :: ch2 :: rest2 := by
        rw [splitU_usc_cons, hrest]
      have := splitU_append ch (hw ch (List.mem_cons_self _ _)) _ _ _ husc
      rw [List.append_assoc]
      simpa using this

theorem flatMap_plain {l : List Char} (h : l.all plainChar = true) :
    (l.flatMap (fun d => if isUpperAZ d then ['_', d] else [d])) = l := by
  induction l with
  | nil => rfl
  | cons c cs ih =>
    rw [List.all_cons, Bool.and_eq_true] at h
    rw [List.flatMap_cons, if_neg (by rw [isUpperAZ_of_plain h.1]; exact fun hc => by cases hc), ih h.2]
    rfl

theorem flatMap_flatten (f : Char → List Char) :
    ∀ ls : List (List Char), ls.flatten.flatMap f = (ls.map (fun l => l.flatMap f)).flatten := by
  intro ls
  induction ls with
  | nil => rfl
  | cons l ls ih => rw [List.flatten_cons, List.flatMap_append, ih, List.map_cons, List.flatten_cons]

theorem pyJoin_usc_flatten :
    ∀ (t : List (List Char)) (h : List Char),
      pyJoin ['_'] (h :: t) = h ++ (t.map (fun ch => '_' :: ch)).flatten := by
  intro t
  induction t with
  | nil => intro h; simp [pyJoin]
  | cons ch t ih =>
    intro h
    rw [pyJoin_cons_cons _ _ _ (by simp), ih ch]
    simp [List.append_assoc]

theorem chunkOK_plain {ch : List Char} (h : chunkOK ch = true) :
    ch.all plainChar = true := by
  cases ch with
  | nil => exact absurd h (by decide)
  | cons c cs =>
    rw [chunkOK, Bool.and_eq_true] at h
    exact h.2

theorem chunkOK_ne_usc {ch : List Char} (h : chunkOK ch = true) :
    ∀ c ∈ ch, c ≠ '_' := by
  intro c hc
  exact plain_ne_usc (List.all_eq_true.mp (chunkOK_plain h) c hc)

theorem chunk_pipeline {ch : List Char} (h : chunkOK ch = true) :
    (((capList ch).flatMap (fun d => if isUpperAZ d then ['_', d] else [d])).map lowerChar)
      = '_' :: ch := by
  cases ch with
  | nil => exact absurd h (by decide)
  | cons d0 ds =>
    rw [chunkOK, Bool.and_eq_true] at h
    have hplain : ds.all plainChar = true := by
      have := h.2
      rw [List.all_cons, Bool.and_eq_true] at this
      exact this.2
    rw [capList, map_lower_plain hplain, List.flatMap_cons,
      if_pos (by rw [isUpperAZ_upperChar h.1]), flatMap_plain hplain]
    rw [List.cons_append, List.singleton_append, List.map_cons, List.map_cons,
      lowerChar_eq_self (by decide), lowerChar_upperChar h.1, map_lower_plain hplain]

theorem roundtrip_chunks :
    ∀ chunks : List (List Char), chunks ≠ [] →
      (∀ ch ∈ chunks, chunkOK ch = true) →
      camel_to_snake_list (snake_to_camel_list (pyJoin ['_'] chunks))
        = pyJoin ['_'] chunks := by
  intro chunks hne hok
  cases chunks with
  | nil => exact absurd rfl hne
  | cons h0 t =>
    have hw : ∀ ch ∈ h0 :: t, ∀ c ∈ ch, c ≠ '_' :=
      fun ch hch => chunkOK_ne_usc (hok ch hch)
    rw [snake_to_camel_list, splitU_pyJoin _ (by simp) hw]
    dsimp only
    cases h0 with
    | nil => exact absurd (hok [] (List.mem_cons_self _ _)) (by decide)
    | cons c0 hs =>
      have hh := hok (c0 :: hs) (List.mem_cons_self _ _)
      rw [chunkOK, Bool.and_eq_true] at hh
      have hsplain : hs.all plainChar = true := by
        have := hh.2
        rw [List.all_cons, Bool.and_eq_true] at this
        exact this.2
      rw [camel_to_snake_list, List.cons_append, insertUnderscores,
        List.flatMap_append, flatMap_plain hsplain, flatMap_flatten, List.map_map,
        List.map_cons, List.map_append, map_lower_plain hsplain,
        lowerChar_eq_self (isUpperAZ_of_plain (by
          have := hh.2
          rw [List.all_cons, Bool.and_eq_true] at this
          exact this.1)),
        List.map_flatten, List.map_map]
      have hcongr :
          (t.map (fun ch =>
            ((capList ch).flatMap
                (fun d => if isUpperAZ d then ['_', d] else [d])).map lowerChar))
            = t.map (fun ch => '_' :: ch) :=
        List.map_eq_map_iff.mpr
          (fun ch hch => chunk_pipeline (hok ch (List.mem_cons_of_mem _ hch)))
      rw [show (List.map lowerChar ∘
            (fun l => l.flatMap fun d => if isUpperAZ d = true then ['_', d] else [d]) ∘
            capList)
          = (fun ch => ((capList ch).flatMap
              (fun d => if isUpperAZ d then ['_', d] else [d])).map lowerChar) from rfl,
        hcongr, pyJoin_usc_flatten t (c0 :: hs)]
      rfl

theorem glueDot_ne_nil (ws cs : List (List Char)) (hws : ws ≠ []) :
    glueDot ws cs ≠ [] := by
  cases ws with
  | nil => exact absurd rfl hws
  | cons w ws2 =>
    cases ws2 with
    | nil =>
      cases cs <;> simp [glueDot]
    | cons v ws3 => simp [glueDot]

theorem mergeChunks_ne_nil :
    ∀ sgs : List (List (List Char)), sgs ≠ [] → (∀ seg ∈ sgs, seg ≠ []) →
      mergeChunks sgs ≠ [] := by
  intro sgs
  induction sgs with
  | nil => intro h; exact absurd rfl h
  | cons seg rest ih =>
    intro _ hseg
    cases rest with
    | nil => exact hseg seg (List.mem_cons_self _ _)
    | cons s2 rest2 =>
      rw [mergeChunks]
      · exact glueDot_ne_nil _ _ (hseg seg (List.mem_cons_self _ _))
      · simp

theorem pyJoin_glueDot :
    ∀ (ws cs : List (List Char)), ws ≠ [] → cs ≠ [] →
      pyJoin ['_'] (glueDot ws cs)
        = pyJoin ['_'] ws ++ '.' :: pyJoin ['_'] cs := by
  intro ws
  induction ws with
  | nil => intro cs h; exact absurd rfl h
  | cons w ws2 ih =>
    intro cs _ hcs
    cases ws2 with
    | nil =>
      cases cs with
      | nil => exact absurd rfl hcs
      | cons c cs2 =>
        cases cs2 with
        | nil => simp [glueDot, pyJoin]
        | cons c2 cs3 =>
          rw [glueDot, pyJoin_cons_cons ['_'] (w ++ '.' :: c) (c2 :: cs3) (by simp),
            pyJoin_cons_cons ['_'] c (c2 :: cs3) (by simp)]
          simp [List.append_assoc]
          rfl
    | cons v ws3 =>
      rw [glueDot, pyJoin_cons_cons ['_'] w (glueDot (v :: ws3) cs)
          (glueDot_ne_nil _ _ (by simp)),
        ih cs (by simp) hcs, pyJoin_cons_cons ['_'] w (v :: ws3) (by simp)]
      simp [List.append_assoc]

theorem renderPath_eq_mergeChunks :
    ∀ sgs : List (List (List Char)), sgs ≠ [] → (∀ seg ∈ sgs, seg ≠ []) →
      renderPath sgs = pyJoin ['_'] (mergeChunks sgs) := by
  intro sgs
  induction sgs with
  | nil => intro h; exact absurd rfl h
  | cons seg rest ih =>
    intro _ hseg
    cases rest with
    | nil => rfl
    | cons s2 rest2 =>
      rw [mergeChunks]
      · rw [pyJoin_glueDot seg _ (hseg seg (List.mem_cons_self _ _))
            (mergeChunks_ne_nil _ (by simp)
              (fun x hx => hseg x (List.mem_cons_of_mem _ hx))),
          ← ih (by simp) (fun x hx => hseg x (List.mem_cons_of_mem _ hx))]
        rw [renderPath, List.map_cons,
          pyJoin_cons_cons _ _ _ (by simp)]
        simp [renderSeg, renderPath, List.append_assoc]
      · simp

theorem wordOKAmended_chunkOK {w : List Char} (h : wordOKAmended w = true) :
    chunkOK w = true := by
  cases w with
  | nil => exact absurd h (by decide)
  | cons c cs =>
    rw [wordOKAmended, Bool.and_eq_true] at h
    obtain ⟨hword, hc⟩ := h
    rw [wordOK, Bool.and_eq_true] at hword
    rw [chunkOK, Bool.and_eq_true]
    refine ⟨hc, ?_⟩
    rw [List.all_eq_true] at hword ⊢
    intro d hd
    rw [plainChar, Bool.or_eq_true]
    exact Or.inl (hword.2 d hd)

theorem chunkOK_glue {w c : List Char} (hw : chunkOK w = true)
    (hc : c.all plainChar = true) : chunkOK (w ++ '.' :: c) = true := by
  cases w with
  | nil => exact absurd hw (by decide)
  | cons d0 ds =>
    rw [chunkOK, Bool.and_eq_true] at hw
    rw [List.cons_append, chunkOK, Bool.and_eq_true]
    refine ⟨hw.1, ?_⟩
    have hall := hw.2
    rw [List.all_eq_true] at hall hc ⊢
    intro x hx
    rcases List.mem_cons.mp hx with rfl | hx
    · exact hall _ (List.mem_cons_self _ _)
    · rcases List.mem_append.mp hx with hx | hx
      · exact hall _ (List.mem_cons_of_mem _ hx)
      · rcases List.mem_cons.mp hx with rfl | hx
        · decide
        · exact hc _ hx

theorem glueDot_chunkOK :
    ∀ (ws cs : List (List Char)), (∀ w ∈ ws, chunkOK w = true) →
      (∀ ch ∈ cs, chunkOK ch = true) →
      ∀ ch ∈ glueDot ws cs, chunkOK ch = true := by
  intro ws
  induction ws with
  | nil =>
    intro cs _ hcs ch hch
    exact hcs ch hch
  | cons w ws2 ih =>
    intro cs hws hcs ch hch
    have hwOK := hws w (List.mem_cons_self _ _)
    cases ws2 with
    | nil =>
      cases cs with
      | nil =>
        rw [glueDot] at hch
        rcases List.mem_singleton.mp hch with rfl
        exact chunkOK_glue hwOK (by decide)
      | cons c cs2 =>
        rw [glueDot] at hch
        rcases List.mem_cons.mp hch with rfl | hch
        · exact chunkOK_glue hwOK (chunkOK_plain (hcs c (List.mem_cons_self _ _)))
        · exact hcs ch (List.mem_cons_of_mem _ hch)
    | cons v ws3 =>
      rw [glueDot] at hch
      rcases List.mem_cons.mp hch with rfl | hch
      · exact hwOK
      · exact ih _ (fun x hx => hws x (List.mem_cons_of_mem _ hx)) hcs ch hch

theorem mergeChunks_chunkOK :
    ∀ sgs : List (List (List Char)),
      (∀ seg ∈ sgs, ∀ w ∈ seg, chunkOK w = true) →
      ∀ ch ∈ mergeChunks sgs, chunkOK ch = true := by
  intro sgs
  induction sgs with
  | nil => intro _ ch hch; cases hch
  | cons seg rest ih =>
    intro hok ch hch
    cases rest with
    | nil => exact hok seg (List.mem_cons_self _ _) ch hch
    | cons s2 rest2 =>
      rw [mergeChunks] at hch
      · exact glueDot_chunkOK seg _ (hok seg (List.mem_cons_self _ _))
          (ih (fun x hx => hok x (List.mem_cons_of_mem _ hx))) ch hch
      · simp

/- ---------------------------------------------------------------------
Claim C9.
--------------------------------------------------------------------- -/

/-- C9 (counterexample): the path `a_2b` — one segment of the two non-empty
lowercase-alphanumeric words `a` and `2b` — does not survive the round trip:
`snake_to_camel` gives `a2b` (capitalising `2b` is the identity on the
digit) and `camel_to_snake` finds no uppercase letter to restore the
underscore from. -/
theorem c9_counterexample :
    pathOK [[['a'], ['2', 'b']]] = true
    ∧ renderPath [[['a'], ['2', 'b']]] = "a_2b".toList
    ∧ camel_to_snake (snake_to_camel "a_2b") = "a2b"
    ∧ camel_to_snake (snake_to_camel "a_2b") ≠ "a_2b" :=
  ⟨by decide, by decide, by decide, by decide⟩

/-- C9 (amended): for every field path of non-empty dot-separated segments
whose non-empty lowercase alphanumeric words each begin with a lowercase
letter, the camel-case mapping is bidirectional:
`camel_to_snake (snake_to_camel s) = s`. -/
theorem c9_roundtrip_amended (sgs : List (List (List Char)))
    (hok : pathOKAmended sgs = true) :
    camel_to_snake (snake_to_camel (renderPath sgs).asString)
        = (renderPath sgs).asString
      ∧ camel_to_snake_list (snake_to_camel_list (renderPath sgs))
        = renderPath sgs := by
  rw [pathOKAmended, Bool.and_eq_true] at hok
  have hne : sgs ≠ [] := by
    intro h
    subst h
    exact absurd hok.1 (by decide)
  have hsegs := List.all_eq_true.mp hok.2
  have hsegne : ∀ seg ∈ sgs, seg ≠ [] := by
    intro seg hseg hnil
    have hs := hsegs seg hseg
    rw [Bool.and_eq_true] at hs
    subst hnil
    exact absurd hs.1 (by decide)
  have hwords : ∀ seg ∈ sgs, ∀ w ∈ seg, chunkOK w = true := by
    intro seg hseg w hw
    have hs := hsegs seg hseg
    rw [Bool.and_eq_true] at hs
    exact wordOKAmended_chunkOK (List.all_eq_true.mp hs.2 w hw)
  have hmain : camel_to_snake_list (snake_to_camel_list (renderPath sgs))
      = renderPath sgs := by
    rw [renderPath_eq_mergeChunks sgs hne hsegne]
    exact roundtrip_chunks _ (mergeChunks_ne_nil sgs hne hsegne)
      (mergeChunks_chunkOK sgs hwords)
  refine ⟨?_, hmain⟩
  show (camel_to_snake_list (snake_to_camel_list (renderPath sgs))).asString = _
  rw [hmain]

/-- Witness for C9 (amended) at the path `ad_group.id`. -/
theorem c9_roundtrip_amended_witness :
    pathOKAmended [[['a', 'd'], ['g', 'r', 'o', 'u', 'p']], [['i', 'd']]] = true
    ∧ (camel_to_snake (snake_to_camel
          (renderPath [[['a', 'd'], ['g', 'r', 'o', 'u', 'p']], [['i', 'd']]]).asString)
        = (renderPath [[['a', 'd'], ['g', 'r', 'o', 'u', 'p']], [['i', 'd']]]).asString
      ∧ camel_to_snake_list (snake_to_camel_list
          (renderPath [[['a', 'd'], ['g', 'r', 'o', 'u', 'p']], [['i', 'd']]]))
        = renderPath [[['a', 'd'], ['g', 'r', 'o', 'u', 'p']], [['i', 'd']]]) :=
  ⟨by decide, c9_roundtrip_amended _ (by decide)⟩
